import Mathlib

/-!
# Verification of the scaraplate strategy-dispatch and merge engine

Shallow embedding of `src/scaraplate/rollup.py` and
`src/scaraplate/strategies.py` (plus the parts of the Python standard
library they call: `fnmatch.fnmatch`, `sorted`, `str.encode("ascii")`,
`bytes.__contains__`, `str.split`/`str.join`, and `configparser` item
access) together with proofs of the behavioural properties of the
dispatch resolver, the `TemplateHash` / `PythonTemplateHash` /
`PylintrcMerge` strategies and the rollup orchestrator.

Python strings are modelled as `List Char` (a Python `str` is a sequence
of code points) and Python `bytes` as `List Nat` (byte values).
-/

set_option maxRecDepth 4000

/-- A Python `str`: a sequence of Unicode code points. -/
abbrev PyStr := List Char

/-- A Python `bytes` object: a sequence of byte values. -/
abbrev Bytes := List Nat

/-- The Python exceptions that the embedded code can raise:
`KeyError` (from `configparser` item access in
`PylintrcMerge._maybe_preserve_key`) and `UnicodeEncodeError`
(from `str.encode("ascii")` in `TemplateHash.apply`). -/
inductive PyExn where
  | keyError
  | unicodeEncodeError
  deriving DecidableEq, Repr

/-! ## Generic sequence containment (`needle in haystack` on `bytes`)
and suffix testing. -/

/-- Python `needle in haystack` for `bytes`/`str`: `needle` occurs as a
contiguous subsequence of `haystack`. -/
def listContains {α : Type} [DecidableEq α] (haystack needle : List α) : Bool :=
  (List.range (haystack.length + 1)).any
    (fun i => decide (((haystack.drop i).take needle.length) = needle))

/-- `haystack` ends with `needle` (used to state "the output ends with
the trailer"). -/
def listEnds {α : Type} [DecidableEq α] (haystack needle : List α) : Bool :=
  decide (needle.length ≤ haystack.length) &&
    decide (haystack.drop (haystack.length - needle.length) = needle)

theorem listContains_append_left {α : Type} [DecidableEq α]
    (x n c : List α) : listContains (x ++ n ++ c) n = true := by
  unfold listContains
  rw [List.any_eq_true]
  refine ⟨x.length, ?_, ?_⟩
  · rw [List.mem_range]
    simp [List.length_append]
    omega
  · rw [List.append_assoc, List.drop_left, List.take_left]
    exact decide_eq_true rfl

theorem listContains_suffix {α : Type} [DecidableEq α]
    (x n : List α) : listContains (x ++ n) n = true := by
  have h := listContains_append_left x n []
  simpa using h

theorem listEnds_append {α : Type} [DecidableEq α]
    (x n : List α) : listEnds (x ++ n) n = true := by
  unfold listEnds
  rw [Bool.and_eq_true]
  constructor
  · simp [List.length_append]
  · have h : (x ++ n).length - n.length = x.length := by
      simp [List.length_append]
    rw [h, List.drop_left]
    exact decide_eq_true rfl

/-! ## `fnmatch.fnmatch` (CPython `Lib/fnmatch.py`)

`fnmatch.fnmatch(name, pat)` normalises case with `os.path.normcase`
(the identity on POSIX, which is the platform model used here) and then
matches `name` against the shell-style pattern `pat`:
`*` matches any sequence of characters (including `/` — the match is
performed against the whole path string), `?` matches any single
character, `[...]` matches a character set/range (with `[!...]`
negation, and a `]` immediately after the opening `[`/`[!` taken
literally), and an unterminated `[` is matched literally. -/

/-- Matching of a single character against the inside of a `[...]`
character class: `lo-hi` spans a code-point range, everything else is a
literal (a `-` in first or last position is literal, as in a regex
character class). -/
def charClassMatches : List Char → Char → Bool
  | [], _ => false
  | lo :: '-' :: hi :: rest, c =>
      (decide (lo.toNat ≤ c.toNat) && decide (c.toNat ≤ hi.toNat)) ||
        charClassMatches rest c
  | x :: rest, c => (x == c) || charClassMatches rest c

/-- Scan for the closing `]` of a character class; returns the class
body and the remaining pattern, or `none` if the class is unterminated
(in CPython's `fnmatch.translate`: the `while j < n and pat[j] != ']'`
scan). -/
def spanToClose : List Char → Option (List Char × List Char)
  | [] => none
  | ']' :: rest => some ([], rest)
  | c :: rest =>
      (spanToClose rest).map (fun pr => (c :: pr.1, pr.2))

/-- Parse the body of a `[...]` class directly after the opening `[`:
a leading `!` negates; a `]` directly after `[` (or `[!`) is part of the
class.  Returns `(negated, body, rest-of-pattern)`, or `none` when the
class is unterminated (then the `[` is matched literally). -/
def parseClass (p : List Char) : Option (Bool × List Char × List Char) :=
  match p with
  | '!' :: q =>
      match q with
      | ']' :: rest => (spanToClose rest).map (fun pr => (true, ']' :: pr.1, pr.2))
      | _ => (spanToClose q).map (fun pr => (true, pr.1, pr.2))
  | _ =>
      match p with
      | ']' :: rest => (spanToClose rest).map (fun pr => (false, ']' :: pr.1, pr.2))
      | _ => (spanToClose p).map (fun pr => (false, pr.1, pr.2))

/-- Fuelled core of the glob matcher (arguments: fuel, pattern, name).
Each recursive call strictly decreases `pattern.length + name.length`,
so fuel `pattern.length + name.length + 1` always suffices and the
`0`-fuel branch is unreachable from `fnmatch` below. -/
def globMatchF : Nat → List Char → List Char → Bool
  | 0, _, _ => false
  | _ + 1, [], name => name.isEmpty
  | f + 1, '*' :: p, name =>
      globMatchF f p name ||
        (match name with
         | [] => false
         | _ :: rest => globMatchF f ('*' :: p) rest)
  | f + 1, '?' :: p, name =>
      (match name with
       | [] => false
       | _ :: rest => globMatchF f p rest)
  | f + 1, '[' :: p, name =>
      (match parseClass p with
       | none =>
           (match name with
            | [] => false
            | d :: rest => ('[' == d) && globMatchF f p rest)
       | some (neg, body, restPat) =>
           (match name with
            | [] => false
            | d :: rest => (charClassMatches body d != neg) && globMatchF f restPat rest))
  | f + 1, c :: p, name =>
      (match name with
       | [] => false
       | d :: rest => (c == d) && globMatchF f p rest)

/-- `fnmatch.fnmatch(name, pat)` on POSIX (where `os.path.normcase` is
the identity). -/
def fnmatch (name pat : PyStr) : Bool :=
  globMatchF (pat.length + name.length + 1) pat name

example : fnmatch "Jenkinsfile".toList "Jenkinsfile".toList = true := by decide
example : fnmatch "some/nested/setup.py".toList "some/nested/setup.py".toList = true := by decide
example : fnmatch "a/b.py".toList "*.py".toList = true := by decide
example : fnmatch "a/b.py".toList "?.py".toList = false := by decide
example : fnmatch "ab.py".toList "a[a-c].py".toList = true := by decide
example : fnmatch "ad.py".toList "a[a-c].py".toList = false := by decide
example : fnmatch "ad.py".toList "a[!a-c].py".toList = true := by decide

/-! ## Python string comparison (`str.__lt__`): lexicographic by code
point.  `sorted` on `dict.items()` orders entries by this relation on
the keys; since dictionary keys are unique, the values never take part
in the comparison. -/

/-- Python `a < b` on strings: lexicographic comparison of code points. -/
def pyStrLt : PyStr → PyStr → Bool
  | [], [] => false
  | [], _ :: _ => true
  | _ :: _, [] => false
  | a :: as_, b :: bs =>
      if a.toNat < b.toNat then true
      else if b.toNat < a.toNat then false
      else pyStrLt as_ bs

/-- Python `a <= b` on strings. -/
def pyStrLe (a b : PyStr) : Bool := !(pyStrLt b a)

theorem pyStrLt_irrefl (a : PyStr) : pyStrLt a a = false := by
  induction a with
  | nil => rfl
  | cons c rest ih => simp [pyStrLt, ih]

theorem charEq_of_toNat_eq {a b : Char} (h : a.toNat = b.toNat) : a = b := by
  have h2 : Char.ofNat a.toNat = Char.ofNat b.toNat := congrArg Char.ofNat h
  rwa [Char.ofNat_toNat, Char.ofNat_toNat] at h2

theorem pyStrLt_asymm : ∀ a b : PyStr, pyStrLt a b = true → pyStrLt b a = false := by
  intro a
  induction a with
  | nil =>
    intro b h
    cases b with
    | nil => simp [pyStrLt] at h
    | cons y ys => simp [pyStrLt]
  | cons x xs ih =>
    intro b h
    cases b with
    | nil => simp [pyStrLt] at h
    | cons y ys =>
      simp only [pyStrLt] at h ⊢
      rcases Nat.lt_trichotomy x.toNat y.toNat with hl | he | hg
      · rw [if_neg (by omega), if_pos hl]
      · rw [if_neg (by omega), if_neg (by omega)] at h
        rw [if_neg (by omega), if_neg (by omega)]
        exact ih ys h
      · rw [if_neg (by omega), if_pos hg] at h
        exact absurd h (by simp)

theorem pyStrLt_trichotomy : ∀ a b : PyStr,
    pyStrLt a b = true ∨ a = b ∨ pyStrLt b a = true := by
  intro a
  induction a with
  | nil =>
    intro b
    cases b with
    | nil => exact Or.inr (Or.inl rfl)
    | cons y ys => exact Or.inl (by simp [pyStrLt])
  | cons x xs ih =>
    intro b
    cases b with
    | nil => exact Or.inr (Or.inr (by simp [pyStrLt]))
    | cons y ys =>
      rcases Nat.lt_trichotomy x.toNat y.toNat with hl | he | hg
      · exact Or.inl (by simp only [pyStrLt]; rw [if_pos hl])
      · have hxy : x = y := charEq_of_toNat_eq he
        subst hxy
        rcases ih ys with h | h | h
        · exact Or.inl (by simp only [pyStrLt]; rw [if_neg (by omega), if_neg (by omega)]; exact h)
        · exact Or.inr (Or.inl (by rw [h]))
        · exact Or.inr (Or.inr (by simp only [pyStrLt]; rw [if_neg (by omega), if_neg (by omega)]; exact h))
      · exact Or.inr (Or.inr (by simp only [pyStrLt]; rw [if_pos hg]))

theorem pyStrLt_trans : ∀ a b c : PyStr,
    pyStrLt a b = true → pyStrLt b c = true → pyStrLt a c = true := by
  intro a
  induction a with
  | nil =>
    intro b c h1 h2
    cases b with
    | nil => simp [pyStrLt] at h1
    | cons y ys =>
      cases c with
      | nil => simp [pyStrLt] at h2
      | cons z zs => simp [pyStrLt]
  | cons x xs ih =>
    intro b c h1 h2
    cases b with
    | nil => simp [pyStrLt] at h1
    | cons y ys =>
      cases c with
      | nil => simp [pyStrLt] at h2
      | cons z zs =>
        simp only [pyStrLt] at h1 h2 ⊢
        rcases Nat.lt_trichotomy x.toNat y.toNat with hxy | hxy | hxy
        · rcases Nat.lt_trichotomy y.toNat z.toNat with hyz | hyz | hyz
          · rw [if_pos (by omega)]
          · rw [if_pos (by omega)]
          · rw [if_neg (by omega), if_pos hyz] at h2
            exact absurd h2 (by simp)
        · rcases Nat.lt_trichotomy y.toNat z.toNat with hyz | hyz | hyz
          · rw [if_pos (by omega)]
          · rw [if_neg (by omega), if_neg (by omega)] at h1 h2 ⊢
            exact ih ys zs h1 h2
          · rw [if_neg (by omega), if_pos hyz] at h2
            exact absurd h2 (by simp)
        · rw [if_neg (by omega), if_pos hxy] at h1
          exact absurd h1 (by simp)

theorem pyStrLe_refl (a : PyStr) : pyStrLe a a = true := by
  simp [pyStrLe, pyStrLt_irrefl]

theorem pyStrLe_total (a b : PyStr) : pyStrLe a b = true ∨ pyStrLe b a = true := by
  rcases pyStrLt_trichotomy a b with h | h | h
  · exact Or.inl (by simp [pyStrLe, pyStrLt_asymm _ _ h])
  · subst h
    exact Or.inl (pyStrLe_refl a)
  · exact Or.inr (by simp [pyStrLe, pyStrLt_asymm _ _ h])

theorem pyStrLe_antisymm (a b : PyStr)
    (h1 : pyStrLe a b = true) (h2 : pyStrLe b a = true) : a = b := by
  simp only [pyStrLe, Bool.not_eq_true'] at h1 h2
  rcases pyStrLt_trichotomy a b with h | h | h
  · rw [h] at h2
    exact absurd h2 (by simp)
  · exact h
  · rw [h] at h1
    exact absurd h1 (by simp)

theorem pyStrLe_trans (a b c : PyStr)
    (h1 : pyStrLe a b = true) (h2 : pyStrLe b c = true) : pyStrLe a c = true := by
  simp only [pyStrLe, Bool.not_eq_true'] at h1 h2 ⊢
  by_contra hca
  rw [Bool.not_eq_false] at hca
  rcases pyStrLt_trichotomy a b with h | h | h
  · have := pyStrLt_trans c a b hca h
    rw [this] at h2
    exact absurd h2 (by simp)
  · subst h
    rw [hca] at h2
    exact absurd h2 (by simp)
  · rw [h] at h1
    exact absurd h1 (by simp)

/-! ## The dispatch resolver (`rollup.py`, `get_strategy`)

```python
def get_strategy(scaraplate_yaml: ScaraplateYaml, path: Path) -> StrategyNode:
    for glob_pattern, strategy_node in sorted(
        scaraplate_yaml.strategies_mapping.items()
    ):
        if fnmatch.fnmatch(str(path), glob_pattern):
            return strategy_node
    return scaraplate_yaml.default_strategy
```

`strategies_mapping` is a Python `dict` (unique keys, declaration order
irrelevant to `sorted`); it is modelled as an association list together
with a `Nodup` hypothesis on the keys in the theorems.  `sorted` on
`dict.items()` sorts pairs; with unique keys the comparison never
reaches the values, so it orders the items by `pyStrLe` on the keys.
The resolver is generic in the node type (the Python code never
inspects the `StrategyNode` values). -/

/-- The order `sorted(strategies_mapping.items())` sorts by: the
pattern string of the entry. -/
def itemLe {Node : Type} (a b : PyStr × Node) : Prop := pyStrLe a.1 b.1 = true

instance itemLeDecidable {Node : Type} : DecidableRel (@itemLe Node) :=
  fun a b => inferInstanceAs (Decidable (pyStrLe a.1 b.1 = true))

instance itemLeTotal {Node : Type} : IsTotal (PyStr × Node) itemLe :=
  ⟨fun a b => pyStrLe_total a.1 b.1⟩

instance itemLeTrans {Node : Type} : IsTrans (PyStr × Node) itemLe :=
  ⟨fun a b c => pyStrLe_trans a.1 b.1 c.1⟩

/-- The fields of the loaded `scaraplate.yaml` used by the dispatch
resolver (`config.ScaraplateYaml`; the `git_remote_type` and
`cookiecutter_context_type` collaborator fields play no part in
dispatch). -/
structure ScaraplateYaml (Node : Type) where
  default_strategy : Node
  strategies_mapping : List (PyStr × Node)

/-- `rollup.get_strategy`: iterate the mapping entries in sorted order
and return the node of the first pattern that `fnmatch`-matches the
path; fall back to `default_strategy`. -/
def get_strategy {Node : Type} (scaraplate_yaml : ScaraplateYaml Node) (path : PyStr) : Node :=
  match (List.insertionSort itemLe scaraplate_yaml.strategies_mapping).find?
      (fun kv => fnmatch path kv.1) with
  | some kv => kv.2
  | none => scaraplate_yaml.default_strategy

theorem find?_sorted_eq_of_min {Node : Type} (path : PyStr) :
    ∀ (l : List (PyStr × Node)) (p : PyStr) (node : Node),
      l.Sorted itemLe →
      (l.map Prod.fst).Nodup →
      (p, node) ∈ l →
      fnmatch path p = true →
      (∀ kv, kv ∈ l → fnmatch path kv.1 = true → pyStrLe p kv.1 = true) →
      l.find? (fun kv => fnmatch path kv.1) = some (p, node) := by
  intro l
  induction l with
  | nil => intro p node _ _ hmem; exact absurd hmem (List.not_mem_nil _)
  | cons hd t ih =>
    intro p node hs hn hmem hp hmin
    rw [List.sorted_cons] at hs
    rw [List.map_cons, List.nodup_cons] at hn
    by_cases hq : fnmatch path hd.1 = true
    · rw [List.find?_cons_of_pos _ (by simp [hq])]
      rcases List.mem_cons.mp hmem with he | ht
      · rw [he]
      · exfalso
        have hk : pyStrLe hd.1 p = true := hs.1 (p, node) ht
        have hpk : pyStrLe p hd.1 = true := hmin hd (List.mem_cons_self hd t) hq
        have : p = hd.1 := pyStrLe_antisymm _ _ hpk hk
        apply hn.1
        rw [← this]
        exact List.mem_map.mpr ⟨(p, node), ht, rfl⟩
    · rw [List.find?_cons_of_neg _ (by simp [hq])]
      rcases List.mem_cons.mp hmem with he | ht
      · exact absurd hp (by rw [← he] at hq; exact hq)
      · exact ih p node hs.2 hn.2 ht hp
          (fun kv hkv hm => hmin kv (List.mem_cons_of_mem hd hkv) hm)

theorem find?_sorted_min_of_eq {Node : Type} (path : PyStr) :
    ∀ (l : List (PyStr × Node)) (x : PyStr × Node),
      l.Sorted itemLe →
      l.find? (fun kv => fnmatch path kv.1) = some x →
      ∀ kv, kv ∈ l → fnmatch path kv.1 = true → pyStrLe x.1 kv.1 = true := by
  intro l
  induction l with
  | nil => intro x _ hf; simp at hf
  | cons hd t ih =>
    intro x hs hf kv hkv hm
    rw [List.sorted_cons] at hs
    by_cases hq : fnmatch path hd.1 = true
    · rw [List.find?_cons_of_pos _ (by simp [hq])] at hf
      have hx : x = hd := by
        injection hf with h
        exact h.symm
      subst hx
      rcases List.mem_cons.mp hkv with he | ht
      · rw [he]
        exact pyStrLe_refl _
      · exact hs.1 kv ht
    · rw [List.find?_cons_of_neg _ (by simp [hq])] at hf
      rcases List.mem_cons.mp hkv with he | ht
      · exact absurd hm (by rw [he]; exact hq)
      · exact ih x hs.2 hf kv ht hm

/-- C1: `get_strategy` iterates the glob patterns in ascending
lexicographic order of the pattern string and returns the node of the
first (hence lexicographically earliest) matching pattern; the result
is independent of the declaration order of the mapping entries.
(The `Nodup` hypotheses model the fact that `strategies_mapping` is a
Python `dict`, whose keys are unique.) -/
theorem get_strategy_lex_first_and_decl_order_independent {Node : Type}
    (default_strategy : Node) (path : PyStr) :
    (∀ (m : List (PyStr × Node)) (p : PyStr) (node : Node),
       (m.map Prod.fst).Nodup →
       (p, node) ∈ m →
       fnmatch path p = true →
       (∀ kv, kv ∈ m → fnmatch path kv.1 = true → pyStrLe p kv.1 = true) →
       get_strategy ⟨default_strategy, m⟩ path = node)
  ∧ (∀ (m1 m2 : List (PyStr × Node)),
       m1.Perm m2 →
       (m1.map Prod.fst).Nodup →
       get_strategy ⟨default_strategy, m1⟩ path =
         get_strategy ⟨default_strategy, m2⟩ path) := by
  have core : ∀ (m : List (PyStr × Node)) (p : PyStr) (node : Node),
      (m.map Prod.fst).Nodup →
      (p, node) ∈ m →
      fnmatch path p = true →
      (∀ kv, kv ∈ m → fnmatch path kv.1 = true → pyStrLe p kv.1 = true) →
      get_strategy ⟨default_strategy, m⟩ path = node := by
    intro m p node hn hmem hp hmin
    have hperm : (List.insertionSort itemLe m).Perm m := List.perm_insertionSort itemLe m
    have hs : (List.insertionSort itemLe m).Sorted itemLe := List.sorted_insertionSort itemLe m
    have hn' : ((List.insertionSort itemLe m).map Prod.fst).Nodup :=
      ((hperm.map Prod.fst).nodup_iff).mpr hn
    have hmem' : (p, node) ∈ List.insertionSort itemLe m := hperm.mem_iff.mpr hmem
    have hmin' : ∀ kv, kv ∈ List.insertionSort itemLe m →
        fnmatch path kv.1 = true → pyStrLe p kv.1 = true :=
      fun kv hkv hm => hmin kv (hperm.mem_iff.mp hkv) hm
    have hfind := find?_sorted_eq_of_min path (List.insertionSort itemLe m) p node
      hs hn' hmem' hp hmin'
    unfold get_strategy
    rw [hfind]
  refine ⟨core, ?_⟩
  intro m1 m2 hperm12 hn1
  have hn2 : (m2.map Prod.fst).Nodup := ((hperm12.map Prod.fst).nodup_iff).mp hn1
  have hp1 : (List.insertionSort itemLe m1).Perm m1 := List.perm_insertionSort itemLe m1
  have hs1 : (List.insertionSort itemLe m1).Sorted itemLe := List.sorted_insertionSort itemLe m1
  cases hfind : (List.insertionSort itemLe m1).find? (fun kv => fnmatch path kv.1) with
  | none =>
    have hnone : ∀ kv, kv ∈ m2 → ¬ (fnmatch path kv.1 = true) := by
      intro kv hkv hm
      have hkv1 : kv ∈ List.insertionSort itemLe m1 :=
        hp1.mem_iff.mpr (hperm12.mem_iff.mpr hkv)
      have := List.find?_eq_none.mp hfind kv hkv1
      simp [hm] at this
    have hfind2 : (List.insertionSort itemLe m2).find? (fun kv => fnmatch path kv.1) = none := by
      rw [List.find?_eq_none]
      intro kv hkv
      have : kv ∈ m2 := (List.perm_insertionSort itemLe m2).mem_iff.mp hkv
      simp [hnone kv this]
    unfold get_strategy
    rw [hfind, hfind2]
  | some x =>
    have hqx : fnmatch path x.1 = true := by
      have := List.find?_some hfind
      simpa using this
    have hx1 : x ∈ m1 := hp1.mem_iff.mp (List.mem_of_find?_eq_some hfind)
    have hmin1 : ∀ kv, kv ∈ m1 → fnmatch path kv.1 = true → pyStrLe x.1 kv.1 = true := by
      intro kv hkv hm
      exact find?_sorted_min_of_eq path (List.insertionSort itemLe m1) x hs1 hfind
        kv (hp1.mem_iff.mpr hkv) hm
    have hres1 : get_strategy ⟨default_strategy, m1⟩ path = x.2 := by
      unfold get_strategy
      rw [hfind]
    have hres2 : get_strategy ⟨default_strategy, m2⟩ path = x.2 := by
      have hx2 : (x.1, x.2) ∈ m2 := hperm12.mem_iff.mp (by simpa using hx1)
      exact core m2 x.1 x.2 hn2 hx2 hqx
        (fun kv hkv hm => hmin1 kv (hperm12.mem_iff.mpr hkv) hm)
    rw [hres1, hres2]

/-- Witness for C1: patterns `a*` and `*.py` both match `a.py`;
`*.py` is lexicographically smaller (code point of `*` is below that of
`a`), so its node wins whatever the declaration order. -/
theorem get_strategy_lex_first_witness :
    get_strategy ⟨0, [("a*".toList, 1), ("*.py".toList, 2)]⟩ "a.py".toList = 2
  ∧ get_strategy ⟨0, [("a*".toList, 1), ("*.py".toList, 2)]⟩ "a.py".toList =
      get_strategy ⟨0, [("*.py".toList, 2), ("a*".toList, 1)]⟩ "a.py".toList := by
  constructor
  · exact (get_strategy_lex_first_and_decl_order_independent 0 "a.py".toList).1
      [("a*".toList, 1), ("*.py".toList, 2)] "*.py".toList 2
      (by decide) (by decide) (by decide) (by decide)
  · exact (get_strategy_lex_first_and_decl_order_independent 0 "a.py".toList).2
      [("a*".toList, 1), ("*.py".toList, 2)] [("*.py".toList, 2), ("a*".toList, 1)]
      (List.Perm.swap _ _ _) (by decide)

/-- C9: a path that matches none of the patterns resolves to
`default_strategy`. -/
theorem get_strategy_no_match_default {Node : Type}
    (default_strategy : Node) (m : List (PyStr × Node)) (path : PyStr)
    (hnone : ∀ kv, kv ∈ m → fnmatch path kv.1 = false) :
    get_strategy ⟨default_strategy, m⟩ path = default_strategy := by
  have hfind : (List.insertionSort itemLe m).find? (fun kv => fnmatch path kv.1) = none := by
    rw [List.find?_eq_none]
    intro kv hkv
    have : kv ∈ m := (List.perm_insertionSort itemLe m).mem_iff.mp hkv
    simp [hnone kv this]
  unfold get_strategy
  rw [hfind]

/-- Witness for C9: `README.md` matches neither `*.py` nor
`Jenkinsfile`, so the default node is returned. -/
theorem get_strategy_no_match_default_witness :
    get_strategy ⟨0, [("*.py".toList, 1), ("Jenkinsfile".toList, 2)]⟩ "README.md".toList = 0 :=
  get_strategy_no_match_default 0 [("*.py".toList, 1), ("Jenkinsfile".toList, 2)]
    "README.md".toList (by decide)

/-! ## The strategies (`strategies.py`)

`TemplateMeta` comes from `template.py` (commit hash, canonical commit
URL, and the working-tree dirty flag); the strategies read the
`commit_url` and `is_git_dirty` fields. -/

structure TemplateMeta where
  commit_hash : PyStr
  commit_url : PyStr
  is_git_dirty : Bool

/-- Python `"".join` / `"\n".join`-style concatenation without a
trailing separator artefact (defined so that it unfolds cleanly). -/
def joinStrs : List PyStr → PyStr
  | [] => []
  | [s] => s
  | s :: rest => s ++ joinStrs rest

/-- `str.encode("ascii")`: succeeds iff every code point is below 128,
otherwise raises `UnicodeEncodeError`. -/
def encodeAscii (s : PyStr) : Option Bytes :=
  if s.all (fun c => decide (c.toNat < 128)) then some (s.map Char.toNat) else none

/-- The lines of the `TemplateHash` trailer comment:

```python
comment_lines = [f"Generated by https://github.com/rambler-digital-solutions/scaraplate"]
if self.template_meta.is_git_dirty:
    comment_lines.append(f"From (dirty) {self.template_meta.commit_url}")
else:
    comment_lines.append(f"From {self.template_meta.commit_url}")
```
-/
def TemplateHash.commentLines (template_meta : TemplateMeta) : List PyStr :=
  ["Generated by https://github.com/rambler-digital-solutions/scaraplate".toList,
   if template_meta.is_git_dirty then
     "From (dirty) ".toList ++ template_meta.commit_url
   else
     "From ".toList ++ template_meta.commit_url]

/-- `TemplateHash.comment` with `line_comment_start = "#"`:
`"".join(f"# {line}\n" for line in comment_lines)`. -/
def TemplateHash.comment (template_meta : TemplateMeta) : PyStr :=
  joinStrs ((TemplateHash.commentLines template_meta).map
    (fun line => "# ".toList ++ line ++ "\n".toList))

/-- The body of `TemplateHash.apply`, parametrised by the comment text
so that the `self.comment()` dynamic dispatch of the subclass
`PythonTemplateHash` is captured:

```python
def apply(self) -> BinaryIO:
    comment = self.comment().encode("ascii")
    if self.target_contents is not None:
        target_text = self.target_contents.read()
        if comment in target_text and not self.template_meta.is_git_dirty:
            # Hash hasn't changed -- keep the target.
            self.target_contents.seek(0)
            return self.target_contents
    out_bytes = self.template_contents.read()
    out_bytes += b"\n" + comment
    return io.BytesIO(out_bytes)
```
-/
def TemplateHash.applyWith (comment : PyStr) (target_contents : Option Bytes)
    (template_contents : Bytes) (template_meta : TemplateMeta) : Except PyExn Bytes :=
  match encodeAscii comment with
  | none => .error .unicodeEncodeError
  | some cbytes =>
    match target_contents with
    | some target_text =>
        if listContains target_text cbytes && !template_meta.is_git_dirty then
          .ok target_text
        else
          .ok (template_contents ++ 10 :: cbytes)
    | none => .ok (template_contents ++ 10 :: cbytes)

/-- `TemplateHash.apply`. -/
def TemplateHash.apply (target_contents : Option Bytes) (template_contents : Bytes)
    (template_meta : TemplateMeta) : Except PyExn Bytes :=
  TemplateHash.applyWith (TemplateHash.comment template_meta)
    target_contents template_contents template_meta

/-- The trailer comment text decomposed around the commit URL: a fixed
header plus `From `, then `(dirty) ` exactly when the working tree was
dirty, then the commit URL and a final newline. -/
theorem templateHash_comment_eq (template_meta : TemplateMeta) :
    TemplateHash.comment template_meta =
      "# Generated by https://github.com/rambler-digital-solutions/scaraplate\n# From ".toList
        ++ (if template_meta.is_git_dirty then "(dirty) ".toList else [])
        ++ (template_meta.commit_url ++ ['\n']) := by
  obtain ⟨ch, u, d⟩ := template_meta
  cases d <;> rfl

theorem encodeAscii_some_eq {s : PyStr} {b : Bytes}
    (h : encodeAscii s = some b) : b = s.map Char.toNat := by
  unfold encodeAscii at h
  split at h
  · injection h with h'
    exact h'.symm
  · exact absurd h (by simp)

/-- C6: whenever `TemplateHash.apply` does not take the idempotent-skip
branch (dirty metadata, absent target, or trailer not contained in the
target), it returns the template bytes, a blank line, and the
ASCII-encoded trailer; the trailer consists of a fixed header plus the
commit URL, prefixed with `(dirty) ` exactly when the template working
tree was dirty; and if the trailer is not representable in ASCII,
`apply` raises `UnicodeEncodeError`. -/
theorem templateHash_nonskip_output (template_meta : TemplateMeta)
    (target_contents : Option Bytes) (template_contents : Bytes) :
    (TemplateHash.comment template_meta =
      "# Generated by https://github.com/rambler-digital-solutions/scaraplate\n# From ".toList
        ++ (if template_meta.is_git_dirty then "(dirty) ".toList else [])
        ++ (template_meta.commit_url ++ ['\n']))
  ∧ (encodeAscii (TemplateHash.comment template_meta) = none →
      TemplateHash.apply target_contents template_contents template_meta =
        .error .unicodeEncodeError)
  ∧ (∀ cbytes, encodeAscii (TemplateHash.comment template_meta) = some cbytes →
      (template_meta.is_git_dirty = true ∨ target_contents = none ∨
        (∃ t, target_contents = some t ∧ listContains t cbytes = false)) →
      TemplateHash.apply target_contents template_contents template_meta =
        .ok (template_contents ++ 10 :: cbytes)) := by
  refine ⟨templateHash_comment_eq template_meta, ?_, ?_⟩
  · intro hnone
    unfold TemplateHash.apply TemplateHash.applyWith
    rw [hnone]
  · intro cbytes henc hcase
    unfold TemplateHash.apply TemplateHash.applyWith
    rw [henc]
    rcases hcase with hdirty | htn | ⟨t, hts, hcont⟩
    · cases htc : target_contents with
      | none => rfl
      | some t => simp [hdirty]
    · rw [htn]
    · rw [hts]
      simp [hcont]

/-- Witness for C6: with a clean metadata carrying commit URL `u` and no
existing target, `apply` emits the template bytes (empty here), the
blank line and the ASCII trailer. -/
theorem templateHash_nonskip_output_witness :
    TemplateHash.apply none [] ⟨[], "u".toList, false⟩ =
      .ok ([] ++ 10 ::
        ("# Generated by https://github.com/rambler-digital-solutions/scaraplate\n# From u\n".toList.map
          Char.toNat)) :=
  (templateHash_nonskip_output ⟨[], "u".toList, false⟩ none []).2.2 _ (by rfl)
    (Or.inr (Or.inl rfl))

/-- C3: when the template metadata is dirty, `TemplateHash.apply` never
takes the idempotent-skip branch: the result is the same as if no
target existed at all (always re-derived from the template bytes plus
the trailer), even when the target already contains the exact trailer
text. -/
theorem templateHash_dirty_never_skips (template_meta : TemplateMeta)
    (t template_contents : Bytes)
    (hdirty : template_meta.is_git_dirty = true) :
    TemplateHash.apply (some t) template_contents template_meta =
      TemplateHash.apply none template_contents template_meta
  ∧ (∀ cbytes, encodeAscii (TemplateHash.comment template_meta) = some cbytes →
      TemplateHash.apply (some t) template_contents template_meta =
        .ok (template_contents ++ 10 :: cbytes)) := by
  constructor
  · unfold TemplateHash.apply TemplateHash.applyWith
    cases henc : encodeAscii (TemplateHash.comment template_meta) with
    | none => rfl
    | some cbytes => simp [hdirty]
  · intro cbytes henc
    unfold TemplateHash.apply TemplateHash.applyWith
    rw [henc]
    simp [hdirty]

/-- Witness for C3: with dirty metadata the result ignores a target that
consists of exactly the dirty trailer text. -/
theorem templateHash_dirty_never_skips_witness :
    TemplateHash.apply
      (some ("# Generated by https://github.com/rambler-digital-solutions/scaraplate\n# From (dirty) u\n".toList.map
        Char.toNat))
      [] ⟨[], "u".toList, true⟩ =
    TemplateHash.apply none [] ⟨[], "u".toList, true⟩ :=
  (templateHash_dirty_never_skips ⟨[], "u".toList, true⟩ _ [] rfl).1

/-- Counterexample to C2 as stated: the claim quantifies over *any*
target.  Take clean metadata with commit URL `u` and a target that
contains the exact trailer followed by an extra byte (`88`, the letter
`X`).  The skip branch fires and returns the target unchanged, so the
produced bytes do *not* end with the trailer. -/
theorem templateHash_clean_idempotent_counterexample :
    ¬ (∀ (template_meta : TemplateMeta), template_meta.is_git_dirty = false →
        ∀ (target_contents : Option Bytes) (template_contents : Bytes),
        ∃ out, TemplateHash.apply target_contents template_contents template_meta = .ok out
          ∧ (∃ cbytes, encodeAscii (TemplateHash.comment template_meta) = some cbytes
               ∧ listEnds out cbytes = true
               ∧ listContains cbytes (template_meta.commit_url.map Char.toNat) = true)
          ∧ TemplateHash.apply (some out) template_contents template_meta = .ok out) := by
  intro h
  obtain ⟨out, hout, ⟨cbytes, henc, hends, _⟩, _⟩ :=
    h ⟨[], "u".toList, false⟩ rfl
      (some (("# Generated by https://github.com/rambler-digital-solutions/scaraplate\n# From u\n".toList.map
        Char.toNat) ++ [88])) []
  have happ : TemplateHash.apply
      (some (("# Generated by https://github.com/rambler-digital-solutions/scaraplate\n# From u\n".toList.map
        Char.toNat) ++ [88])) [] ⟨[], "u".toList, false⟩ =
      .ok (("# Generated by https://github.com/rambler-digital-solutions/scaraplate\n# From u\n".toList.map
        Char.toNat) ++ [88]) := by rfl
  rw [happ] at hout
  injection hout with hout'
  have hcb : cbytes =
      "# Generated by https://github.com/rambler-digital-solutions/scaraplate\n# From u\n".toList.map
        Char.toNat := by
    have := encodeAscii_some_eq henc
    rw [this]
    rfl
  rw [← hout', hcb] at hends
  have : listEnds
      (("# Generated by https://github.com/rambler-digital-solutions/scaraplate\n# From u\n".toList.map
        Char.toNat) ++ [88])
      ("# Generated by https://github.com/rambler-digital-solutions/scaraplate\n# From u\n".toList.map
        Char.toNat) = false := by rfl
  rw [this] at hends
  exact absurd hends (by simp)

/-- C2 (amended): for clean metadata whose trailer is representable in
ASCII, applying `TemplateHash` with a target that is absent or does not
already contain the trailer produces bytes ending in the trailer (which
contains the commit URL), and re-applying with the target equal to that
output and the same clean metadata returns it byte-identically
unchanged. -/
theorem templateHash_clean_idempotent (template_meta : TemplateMeta)
    (template_contents : Bytes) (target_contents : Option Bytes)
    (hclean : template_meta.is_git_dirty = false)
    (cbytes : Bytes)
    (henc : encodeAscii (TemplateHash.comment template_meta) = some cbytes)
    (hfresh : target_contents = none ∨
        ∃ t, target_contents = some t ∧ listContains t cbytes = false) :
    ∃ out, TemplateHash.apply target_contents template_contents template_meta = .ok out
      ∧ listEnds out cbytes = true
      ∧ listContains cbytes (template_meta.commit_url.map Char.toNat) = true
      ∧ TemplateHash.apply (some out) template_contents template_meta = .ok out := by
  refine ⟨template_contents ++ 10 :: cbytes, ?_, ?_, ?_, ?_⟩
  · unfold TemplateHash.apply TemplateHash.applyWith
    rw [henc]
    rcases hfresh with htn | ⟨t, hts, hcont⟩
    · rw [htn]
    · rw [hts]
      simp [hcont]
  · have : template_contents ++ 10 :: cbytes = (template_contents ++ [10]) ++ cbytes := by
      simp
    rw [this]
    exact listEnds_append _ _
  · have hcb := encodeAscii_some_eq henc
    rw [templateHash_comment_eq, hclean] at hcb
    simp only [if_neg Bool.false_ne_true, List.map_append, List.map_nil,
      List.append_nil] at hcb
    rw [hcb, ← List.append_assoc]
    exact listContains_append_left _ _ _
  · unfold TemplateHash.apply TemplateHash.applyWith
    rw [henc]
    have hcont : listContains (template_contents ++ 10 :: cbytes) cbytes = true := by
      have : template_contents ++ 10 :: cbytes = (template_contents ++ [10]) ++ cbytes := by
        simp
      rw [this]
      exact listContains_suffix _ _
    simp [hcont, hclean]

/-- Witness for the amended C2 at clean metadata with commit URL `u`,
no pre-existing target and empty template bytes. -/
theorem templateHash_clean_idempotent_witness :
    ∃ out, TemplateHash.apply none [] ⟨[], "u".toList, false⟩ = .ok out
      ∧ listEnds out
          ("# Generated by https://github.com/rambler-digital-solutions/scaraplate\n# From u\n".toList.map
            Char.toNat) = true
      ∧ listContains
          ("# Generated by https://github.com/rambler-digital-solutions/scaraplate\n# From u\n".toList.map
            Char.toNat) ("u".toList.map Char.toNat) = true
      ∧ TemplateHash.apply (some out) [] ⟨[], "u".toList, false⟩ = .ok out :=
  templateHash_clean_idempotent ⟨[], "u".toList, false⟩ [] none rfl _ (by rfl)
    (Or.inl rfl)

/-! ## `PythonTemplateHash` (`strategies.py`)

```python
class PythonTemplateHash(TemplateHash):
    line_length = 87

    def comment(self) -> str:
        comment = super().comment()
        comment_lines = comment.split("\n")
        comment_lines = [self._maybe_add_noqa(line) for line in comment_lines]
        return "\n".join(comment_lines)

    def _maybe_add_noqa(self, line: str) -> str:
        if len(line) >= self.line_length:
            return f"{line}  # noqa"
        return line
```
-/

/-- Python `str.split("\n")`. -/
def splitNl : PyStr → List PyStr
  | [] => [[]]
  | c :: rest =>
      if c = '\n' then [] :: splitNl rest
      else
        match splitNl rest with
        | [] => [[c]]
        | l :: ls => (c :: l) :: ls

/-- Python `"\n".join`. -/
def joinNl : List PyStr → PyStr
  | [] => []
  | [s] => s
  | s :: rest => s ++ '\n' :: joinNl rest

/-- `PythonTemplateHash._maybe_add_noqa` (note: the source appends two
spaces and `# noqa`). -/
def PythonTemplateHash.maybeAddNoqa (line : PyStr) : PyStr :=
  if 87 ≤ line.length then line ++ "  # noqa".toList else line

/-- `PythonTemplateHash.comment`. -/
def PythonTemplateHash.comment (template_meta : TemplateMeta) : PyStr :=
  joinNl ((splitNl (TemplateHash.comment template_meta)).map
    PythonTemplateHash.maybeAddNoqa)

/-- `PythonTemplateHash.apply` is the inherited `TemplateHash.apply`
body with `self.comment()` dispatching to the override above. -/
def PythonTemplateHash.apply (target_contents : Option Bytes) (template_contents : Bytes)
    (template_meta : TemplateMeta) : Except PyExn Bytes :=
  TemplateHash.applyWith (PythonTemplateHash.comment template_meta)
    target_contents template_contents template_meta

theorem splitNl_ne_nil : ∀ s : PyStr, splitNl s ≠ [] := by
  intro s
  cases s with
  | nil => simp [splitNl]
  | cons c rest =>
    simp only [splitNl]
    split
    · simp
    · cases h : splitNl rest <;> simp

theorem splitNl_no_nl : ∀ (s : PyStr) (l : PyStr), l ∈ splitNl s → '\n' ∉ l := by
  intro s
  induction s with
  | nil =>
    intro l hl
    simp [splitNl] at hl
    simp [hl]
  | cons c rest ih =>
    intro l hl
    simp only [splitNl] at hl
    by_cases hc : c = '\n'
    · rw [if_pos hc] at hl
      rcases List.mem_cons.mp hl with he | ht
      · simp [he]
      · exact ih l ht
    · rw [if_neg hc] at hl
      cases hrest : splitNl rest with
      | nil => exact absurd hrest (splitNl_ne_nil rest)
      | cons hd tl =>
        rw [hrest] at hl
        rcases List.mem_cons.mp hl with he | ht
        · intro hmem
          rw [he] at hmem
          rcases List.mem_cons.mp hmem with h1 | h2
          · exact hc h1.symm
          · exact ih hd (by rw [hrest]; exact List.mem_cons_self hd tl) h2
        · exact ih l (by rw [hrest]; exact List.mem_cons_of_mem hd ht)

theorem splitNl_of_no_nl : ∀ x : PyStr, '\n' ∉ x → splitNl x = [x] := by
  intro x
  induction x with
  | nil => intro _; rfl
  | cons c rest ih =>
    intro hx
    have hc : ¬ (c = '\n') := fun h => hx (by rw [h]; exact List.mem_cons_self _ _)
    have hrest : '\n' ∉ rest := fun h => hx (List.mem_cons_of_mem c h)
    simp only [splitNl, if_neg hc, ih hrest]

theorem splitNl_append_nl : ∀ (x t : PyStr), '\n' ∉ x →
    splitNl (x ++ '\n' :: t) = x :: splitNl t := by
  intro x
  induction x with
  | nil =>
    intro t _
    simp [splitNl]
  | cons c rest ih =>
    intro t hx
    have hc : ¬ (c = '\n') := fun h => hx (by rw [h]; exact List.mem_cons_self _ _)
    have hrest : '\n' ∉ rest := fun h => hx (List.mem_cons_of_mem c h)
    simp only [List.cons_append, splitNl, if_neg hc, List.append_eq, ih t hrest]

theorem splitNl_joinNl : ∀ xs : List PyStr, xs ≠ [] → (∀ x ∈ xs, '\n' ∉ x) →
    splitNl (joinNl xs) = xs := by
  intro xs
  induction xs with
  | nil => intro h; exact absurd rfl h
  | cons x rest ih =>
    intro _ hfree
    cases rest with
    | nil =>
      show splitNl (joinNl [x]) = [x]
      show splitNl x = [x]
      exact splitNl_of_no_nl x (hfree x (List.mem_cons_self _ _))
    | cons y ys =>
      show splitNl (x ++ '\n' :: joinNl (y :: ys)) = x :: y :: ys
      rw [splitNl_append_nl x _ (hfree x (List.mem_cons_self _ _))]
      rw [ih (by simp) (fun z hz => hfree z (List.mem_cons_of_mem x hz))]

theorem maybeAddNoqa_no_nl {l : PyStr} (h : '\n' ∉ l) :
    '\n' ∉ PythonTemplateHash.maybeAddNoqa l := by
  unfold PythonTemplateHash.maybeAddNoqa
  split
  · intro hmem
    rcases List.mem_append.mp hmem with h1 | h2
    · exact h h1
    · exact absurd h2 (by decide)
  · exact h

theorem pythonComment_splitNl (template_meta : TemplateMeta) :
    splitNl (PythonTemplateHash.comment template_meta) =
      (splitNl (TemplateHash.comment template_meta)).map
        PythonTemplateHash.maybeAddNoqa := by
  unfold PythonTemplateHash.comment
  apply splitNl_joinNl
  · intro h
    exact splitNl_ne_nil (TemplateHash.comment template_meta) (List.map_eq_nil_iff.mp h)
  · intro x hx
    obtain ⟨y, hy, hxy⟩ := List.mem_map.mp hx
    rw [← hxy]
    exact maybeAddNoqa_no_nl (splitNl_no_nl _ y hy)

/-- C5: line for line, the `PythonTemplateHash` trailer is the
`TemplateHash` trailer with `  # noqa` appended to (exactly) the lines
of length at least 87 — such lines therefore end in the ` # noqa`
suppression marker — and apart from this suffixing the strategy is the
inherited `TemplateHash.apply` body applied to the reworked trailer. -/
theorem pythonTemplateHash_noqa (template_meta : TemplateMeta)
    (target_contents : Option Bytes) (template_contents : Bytes) :
    List.Forall₂ (fun b o =>
        (87 ≤ b.length →
          o = b ++ "  # noqa".toList ∧ listEnds o " # noqa".toList = true)
      ∧ (b.length < 87 → o = b))
      (splitNl (TemplateHash.comment template_meta))
      (splitNl (PythonTemplateHash.comment template_meta))
  ∧ PythonTemplateHash.apply target_contents template_contents template_meta =
      TemplateHash.applyWith (PythonTemplateHash.comment template_meta)
        target_contents template_contents template_meta := by
  refine ⟨?_, rfl⟩
  rw [pythonComment_splitNl]
  rw [List.forall₂_map_right_iff]
  rw [List.forall₂_same]
  intro x _
  constructor
  · intro hlong
    unfold PythonTemplateHash.maybeAddNoqa
    rw [if_pos hlong]
    refine ⟨rfl, ?_⟩
    have hsplit : "  # noqa".toList = ' ' :: " # noqa".toList := by decide
    rw [hsplit, List.append_cons]
    exact listEnds_append _ _
  · intro hshort
    unfold PythonTemplateHash.maybeAddNoqa
    rw [if_neg (by omega)]

/-- Witness for C5 at a concrete metadata whose `From` line reaches the
87-character threshold (an 82-character commit URL): the long line gets
`  # noqa` appended, the short header line is untouched. -/
theorem pythonTemplateHash_noqa_witness :
    PythonTemplateHash.apply none [] ⟨[],
      "AAAAAAAAAAAAAAAAAAAAAAAAAAAAAAAAAAAAAAAAAAAAAAAAAAAAAAAAAAAAAAAAAAAAAAAAAAAAAAAAAA".toList,
      false⟩ =
    TemplateHash.applyWith (PythonTemplateHash.comment ⟨[],
      "AAAAAAAAAAAAAAAAAAAAAAAAAAAAAAAAAAAAAAAAAAAAAAAAAAAAAAAAAAAAAAAAAAAAAAAAAAAAAAAAAA".toList,
      false⟩) none [] ⟨[],
      "AAAAAAAAAAAAAAAAAAAAAAAAAAAAAAAAAAAAAAAAAAAAAAAAAAAAAAAAAAAAAAAAAAAAAAAAAAAAAAAAAA".toList,
      false⟩ :=
  (pythonTemplateHash_noqa ⟨[],
    "AAAAAAAAAAAAAAAAAAAAAAAAAAAAAAAAAAAAAAAAAAAAAAAAAAAAAAAAAAAAAAAAAAAAAAAAAAAAAAAAAA".toList,
    false⟩ none []).2

example :
    PythonTemplateHash.comment ⟨[],
      "AAAAAAAAAAAAAAAAAAAAAAAAAAAAAAAAAAAAAAAAAAAAAAAAAAAAAAAAAAAAAAAAAAAAAAAAAAAAAAAAAA".toList,
      false⟩ =
    ("# Generated by https://github.com/rambler-digital-solutions/scaraplate\n"
      ++ "# From AAAAAAAAAAAAAAAAAAAAAAAAAAAAAAAAAAAAAAAAAAAAAAAAAAAAAAAAAAAAAAAAAAAAAAAAAAAAAAAAAA  # noqa\n").toList := by
  decide

/-! ## `PylintrcMerge` (`strategies.py`)

```python
def apply(self) -> BinaryIO:
    template_parser = pylintrc_parser(self.template_contents, source=".pylintrc.template")
    if self.target_contents is not None:
        target_parser = pylintrc_parser(self.target_contents, source=".pylintrc.target")
        self._maybe_preserve_key(template_parser, target_parser, "TYPECHECK", "ignored-modules")
        self._maybe_preserve_key(template_parser, target_parser, "TYPECHECK", "ignored-classes")
    return parser_to_pretty_output(template_parser)

def _maybe_preserve_key(self, template_parser, target_parser, section, key) -> None:
    try:
        target = target_parser[section][key]
    except KeyError:
        # No such section/value in target -- keep the one that is in the template.
        return
    else:
        template_parser[section][key] = target
```

A parsed `ConfigParser` document is modelled as an association list of
sections, each an association list of key/value pairs (the INI parsing
and pretty-printing themselves live in the repository's `parsers.py`,
which only constructs/serialises these structures; the merge logic
above operates on the parsed documents).  `parser[section]` raises
`KeyError` for a missing section, and the subsequent `[key]` raises
`KeyError` for a missing key; assignment into an existing section
creates or overwrites the key.  Only the *target*-side lookup is inside
the `try`, so a missing `TYPECHECK` section in the *template* makes the
assignment raise an uncaught `KeyError`. -/

abbrev IniSection := List (PyStr × PyStr)

abbrev Ini := List (PyStr × IniSection)

/-- `parser[section]`: the section's key/value pairs, or `none` for a
`KeyError`. -/
def iniFindSection : Ini → PyStr → Option IniSection
  | [], _ => none
  | (s, kvs) :: rest, sec => if s = sec then some kvs else iniFindSection rest sec

/-- `section_proxy[key]`: the value, or `none` for a `KeyError`. -/
def lookupKey : IniSection → PyStr → Option PyStr
  | [], _ => none
  | (k, v) :: rest, key => if k = key then some v else lookupKey rest key

/-- `parser[section][key]` as one lookup. -/
def iniGet (ini : Ini) (sec key : PyStr) : Option PyStr :=
  match iniFindSection ini sec with
  | none => none
  | some kvs => lookupKey kvs key

/-- `section_proxy[key] = value`: overwrite or append the key. -/
def setKey : IniSection → PyStr → PyStr → IniSection
  | [], key, v => [(key, v)]
  | (k, w) :: rest, key, v =>
      if k = key then (k, v) :: rest else (k, w) :: setKey rest key v

/-- `parser[section][key] = value`: `none` models the `KeyError` raised
by `parser[section]` when the section does not exist. -/
def iniSet : Ini → PyStr → PyStr → PyStr → Option Ini
  | [], _, _, _ => none
  | (s, kvs) :: rest, sec, key, v =>
      if s = sec then some ((s, setKey kvs key v) :: rest)
      else (iniSet rest sec key v).map (fun r => (s, kvs) :: r)

/-- `PylintrcMerge._maybe_preserve_key` on parsed documents. -/
def PylintrcMerge.maybePreserveKey (tpl tgt : Ini) (sec key : PyStr) : Except PyExn Ini :=
  match iniGet tgt sec key with
  | none => .ok tpl
  | some v =>
    match iniSet tpl sec key v with
    | none => .error .keyError
    | some tpl2 => .ok tpl2

/-- `PylintrcMerge.apply` on parsed documents (the merged document that
`parser_to_pretty_output` then serialises). -/
def PylintrcMerge.apply (tpl : Ini) (tgt : Option Ini) : Except PyExn Ini :=
  match tgt with
  | none => .ok tpl
  | some t =>
    match PylintrcMerge.maybePreserveKey tpl t "TYPECHECK".toList "ignored-modules".toList with
    | .error e => .error e
    | .ok t1 =>
      match PylintrcMerge.maybePreserveKey t1 t "TYPECHECK".toList "ignored-classes".toList with
      | .error e => .error e
      | .ok t2 => .ok t2

theorem lookupKey_setKey_same : ∀ (kvs : IniSection) (key v : PyStr),
    lookupKey (setKey kvs key v) key = some v := by
  intro kvs key v
  induction kvs with
  | nil => simp [setKey, lookupKey]
  | cons kv rest ih =>
    obtain ⟨k, w⟩ := kv
    by_cases hk : k = key
    · simp [setKey, hk, lookupKey]
    · simp [setKey, hk, lookupKey, ih]

theorem lookupKey_setKey_other : ∀ (kvs : IniSection) (key key2 v : PyStr),
    key2 ≠ key → lookupKey (setKey kvs key v) key2 = lookupKey kvs key2 := by
  intro kvs key key2 v hne
  induction kvs with
  | nil =>
    have hkk : ¬ (key = key2) := fun h => hne h.symm
    simp [setKey, lookupKey, hkk]
  | cons kv rest ih =>
    obtain ⟨k, w⟩ := kv
    by_cases hk : k = key
    · subst hk
      have hkk : ¬ (k = key2) := fun h => hne h.symm
      simp [setKey, lookupKey, hkk]
    · simp [setKey, hk, lookupKey, ih]

theorem iniSet_of_none : ∀ (tpl : Ini) (sec key v : PyStr),
    iniFindSection tpl sec = none → iniSet tpl sec key v = none := by
  intro tpl sec key v h
  induction tpl with
  | nil => rfl
  | cons skvs rest ih =>
    obtain ⟨s, kvs⟩ := skvs
    by_cases hs : s = sec
    · simp [iniFindSection, hs] at h
    · simp [iniFindSection, hs] at h
      simp [iniSet, hs, ih h]

theorem iniSet_of_some : ∀ (tpl : Ini) (sec key v : PyStr) (kvs : IniSection),
    iniFindSection tpl sec = some kvs →
    ∃ tpl2, iniSet tpl sec key v = some tpl2
      ∧ iniFindSection tpl2 sec = some (setKey kvs key v)
      ∧ (∀ sec2, sec2 ≠ sec → iniFindSection tpl2 sec2 = iniFindSection tpl sec2) := by
  intro tpl sec key v kvs h
  induction tpl with
  | nil => simp [iniFindSection] at h
  | cons skvs rest ih =>
    obtain ⟨s, kvs'⟩ := skvs
    by_cases hs : s = sec
    · subst hs
      have h' : kvs' = kvs := by
        simpa [iniFindSection] using h
      subst h'
      refine ⟨(s, setKey kvs' key v) :: rest, ?_, ?_, ?_⟩
      · simp [iniSet]
      · simp [iniFindSection]
      · intro sec2 hne
        have hss : ¬ (s = sec2) := fun h2 => hne h2.symm
        simp [iniFindSection, hss]
    · simp [iniFindSection, hs] at h
      obtain ⟨tpl2, h1, h2, h3⟩ := ih h
      refine ⟨(s, kvs') :: tpl2, ?_, ?_, ?_⟩
      · simp [iniSet, hs, h1]
      · simp [iniFindSection, hs, h2]
      · intro sec2 hne
        by_cases hs2 : s = sec2
        · simp [iniFindSection, hs2]
        · simp [iniFindSection, hs2, h3 sec2 hne]

/-- After a successful `parser[sec][key] = v`: the key reads back as
`v`, and every other `(section, key)` pair is unchanged. -/
theorem iniSet_get (tpl tpl2 : Ini) (sec key v : PyStr)
    (h : iniSet tpl sec key v = some tpl2) :
    iniGet tpl2 sec key = some v
  ∧ (∀ key2, key2 ≠ key → iniGet tpl2 sec key2 = iniGet tpl sec key2)
  ∧ (∀ sec2 key2, sec2 ≠ sec → iniGet tpl2 sec2 key2 = iniGet tpl sec2 key2)
  ∧ (iniFindSection tpl2 sec).isSome := by
  cases hfind : iniFindSection tpl sec with
  | none => rw [iniSet_of_none tpl sec key v hfind] at h; exact absurd h (by simp)
  | some kvs =>
    obtain ⟨tpl2', h1, h2, h3⟩ := iniSet_of_some tpl sec key v kvs hfind
    rw [h1] at h
    injection h with h'
    subst h'
    refine ⟨?_, ?_, ?_, ?_⟩
    · simp [iniGet, h2, lookupKey_setKey_same]
    · intro key2 hne
      simp [iniGet, h2, hfind, lookupKey_setKey_other kvs key key2 v hne]
    · intro sec2 key2 hne
      simp [iniGet, h3 sec2 hne]
    · simp [h2]

/-- Counterexample to C4 as stated: for *every* pair of parsed
documents the target's value was claimed to replace the template's in
the merged output.  With a template that has no `TYPECHECK` section and
a target defining `[TYPECHECK] ignored-modules = bar`, the assignment
into the template parser raises an uncaught `KeyError` (see C10), so
there is no merged output at all. -/
theorem pylintrcMerge_preserve_counterexample :
    ¬ (∀ (tpl tgt : Ini) (key : PyStr),
        (key = "ignored-modules".toList ∨ key = "ignored-classes".toList) →
        (∀ v, iniGet tgt "TYPECHECK".toList key = some v →
           ∃ out, PylintrcMerge.apply tpl (some tgt) = .ok out
             ∧ iniGet out "TYPECHECK".toList key = some v)
      ∧ (iniGet tgt "TYPECHECK".toList key = none →
           ∃ out, PylintrcMerge.apply tpl (some tgt) = .ok out
             ∧ iniGet out "TYPECHECK".toList key =
                 iniGet tpl "TYPECHECK".toList key)) := by
  intro h
  obtain ⟨out, hout, _⟩ :=
    (h [] [("TYPECHECK".toList, [("ignored-modules".toList, "bar".toList)])]
        "ignored-modules".toList (Or.inl rfl)).1 "bar".toList (by rfl)
  have : PylintrcMerge.apply ([] : Ini)
      (some [("TYPECHECK".toList, [("ignored-modules".toList, "bar".toList)])]) =
      .error .keyError := by rfl
  rw [this] at hout
  exact absurd hout (by simp)

/-- C4 (amended): provided the template document has a `TYPECHECK`
section whenever the target defines one of the preserved keys (else
`apply` raises `KeyError`, see C10), the merge succeeds; for each of
`ignored-modules` and `ignored-classes` in section `TYPECHECK`, a value
defined by the target replaces the template's value in the merged
document, and when the target does not define the key the template's
value is kept unmodified. -/
theorem pylintrcMerge_preserves_keys (tpl tgt : Ini)
    (hsec : (iniGet tgt "TYPECHECK".toList "ignored-modules".toList ≠ none ∨
             iniGet tgt "TYPECHECK".toList "ignored-classes".toList ≠ none) →
            (iniFindSection tpl "TYPECHECK".toList).isSome) :
    ∃ out, PylintrcMerge.apply tpl (some tgt) = .ok out
      ∧ (∀ key, (key = "ignored-modules".toList ∨ key = "ignored-classes".toList) →
          ((∀ v, iniGet tgt "TYPECHECK".toList key = some v →
              iniGet out "TYPECHECK".toList key = some v)
         ∧ (iniGet tgt "TYPECHECK".toList key = none →
              iniGet out "TYPECHECK".toList key = iniGet tpl "TYPECHECK".toList key))) := by
  have hkeys : "ignored-classes".toList ≠ "ignored-modules".toList := by decide
  cases him : iniGet tgt "TYPECHECK".toList "ignored-modules".toList with
  | none =>
    cases hic : iniGet tgt "TYPECHECK".toList "ignored-classes".toList with
    | none =>
      refine ⟨tpl, ?_, ?_⟩
      · simp only [PylintrcMerge.apply, PylintrcMerge.maybePreserveKey, him, hic]
      · intro key hkey
        constructor
        · intro v hv
          rcases hkey with hk | hk <;> rw [hk] at hv
          · rw [him] at hv; exact absurd hv (by simp)
          · rw [hic] at hv; exact absurd hv (by simp)
        · intro _; rfl
    | some v2 =>
      have hs : (iniFindSection tpl "TYPECHECK".toList).isSome :=
        hsec (Or.inr (by rw [hic]; simp))
      obtain ⟨kvs, hkvs⟩ := Option.isSome_iff_exists.mp hs
      obtain ⟨tpl2, hset, _, _⟩ :=
        iniSet_of_some tpl "TYPECHECK".toList "ignored-classes".toList v2 kvs hkvs
      obtain ⟨hget2, hother2, _, _⟩ := iniSet_get tpl tpl2 _ _ _ hset
      refine ⟨tpl2, ?_, ?_⟩
      · simp only [PylintrcMerge.apply, PylintrcMerge.maybePreserveKey, him, hic, hset]
      · intro key hkey
        rcases hkey with hk | hk <;> subst hk
        · constructor
          · intro v hv
            rw [him] at hv
            exact absurd hv (by simp)
          · intro _
            exact hother2 _ (by decide)
        · constructor
          · intro v hv
            rw [hic] at hv
            injection hv with hv'
            rw [← hv']
            exact hget2
          · intro hv
            rw [hic] at hv
            exact absurd hv (by simp)
  | some v1 =>
    have hs : (iniFindSection tpl "TYPECHECK".toList).isSome :=
      hsec (Or.inl (by rw [him]; simp))
    obtain ⟨kvs, hkvs⟩ := Option.isSome_iff_exists.mp hs
    obtain ⟨tpl1, hset1, _, _⟩ :=
      iniSet_of_some tpl "TYPECHECK".toList "ignored-modules".toList v1 kvs hkvs
    obtain ⟨hget1, hother1, _, hsome1⟩ := iniSet_get tpl tpl1 _ _ _ hset1
    cases hic : iniGet tgt "TYPECHECK".toList "ignored-classes".toList with
    | none =>
      refine ⟨tpl1, ?_, ?_⟩
      · simp only [PylintrcMerge.apply, PylintrcMerge.maybePreserveKey, him, hic, hset1]
      · intro key hkey
        rcases hkey with hk | hk <;> subst hk
        · constructor
          · intro v hv
            rw [him] at hv
            injection hv with hv'
            rw [← hv']
            exact hget1
          · intro hv
            rw [him] at hv
            exact absurd hv (by simp)
        · constructor
          · intro v hv
            rw [hic] at hv
            exact absurd hv (by simp)
          · intro _
            exact hother1 _ hkeys
    | some v2 =>
      obtain ⟨kvs1, hkvs1⟩ := Option.isSome_iff_exists.mp hsome1
      obtain ⟨tpl2, hset2, _, _⟩ :=
        iniSet_of_some tpl1 "TYPECHECK".toList "ignored-classes".toList v2 kvs1 hkvs1
      obtain ⟨hget2, hother2, _, _⟩ := iniSet_get tpl1 tpl2 _ _ _ hset2
      refine ⟨tpl2, ?_, ?_⟩
      · simp only [PylintrcMerge.apply, PylintrcMerge.maybePreserveKey, him, hic,
          hset1, hset2]
      · intro key hkey
        rcases hkey with hk | hk <;> subst hk
        · constructor
          · intro v hv
            rw [him] at hv
            injection hv with hv'
            rw [← hv']
            rw [hother2 _ (by decide)]
            exact hget1
          · intro hv
            rw [him] at hv
            exact absurd hv (by simp)
        · constructor
          · intro v hv
            rw [hic] at hv
            injection hv with hv'
            rw [← hv']
            exact hget2
          · intro hv
            rw [hic] at hv
            exact absurd hv (by simp)

/-- Witness for the amended C4: template `[TYPECHECK] ignored-modules =
foo`, target `[TYPECHECK] ignored-modules = bar` — the merge succeeds
and the merged document carries `bar`. -/
theorem pylintrcMerge_preserves_keys_witness :
    ∃ out, PylintrcMerge.apply
        [("TYPECHECK".toList, [("ignored-modules".toList, "foo".toList)])]
        (some [("TYPECHECK".toList, [("ignored-modules".toList, "bar".toList)])]) = .ok out
      ∧ iniGet out "TYPECHECK".toList "ignored-modules".toList = some "bar".toList := by
  obtain ⟨out, hout, hprop⟩ := pylintrcMerge_preserves_keys
    [("TYPECHECK".toList, [("ignored-modules".toList, "foo".toList)])]
    [("TYPECHECK".toList, [("ignored-modules".toList, "bar".toList)])]
    (fun _ => by decide)
  exact ⟨out, hout,
    (hprop "ignored-modules".toList (Or.inl rfl)).1 "bar".toList (by rfl)⟩

/-- C10: when the target defines `ignored-modules` or `ignored-classes`
in its `TYPECHECK` section but the template has no `TYPECHECK` section,
`PylintrcMerge.apply` raises an uncaught `KeyError` from the assignment
into the template parser — the merge produces no output (the error is
neither converted into a `MergeError` nor silently skipped). -/
theorem pylintrcMerge_keyError_on_missing_template_section (tpl tgt : Ini)
    (hnosec : iniFindSection tpl "TYPECHECK".toList = none)
    (hdef : iniGet tgt "TYPECHECK".toList "ignored-modules".toList ≠ none ∨
            iniGet tgt "TYPECHECK".toList "ignored-classes".toList ≠ none) :
    PylintrcMerge.apply tpl (some tgt) = .error .keyError := by
  cases him : iniGet tgt "TYPECHECK".toList "ignored-modules".toList with
  | some v1 =>
    have hs1 := iniSet_of_none tpl "TYPECHECK".toList "ignored-modules".toList v1 hnosec
    simp only [PylintrcMerge.apply, PylintrcMerge.maybePreserveKey, him, hs1]
  | none =>
    cases hic : iniGet tgt "TYPECHECK".toList "ignored-classes".toList with
    | some v2 =>
      have hs2 := iniSet_of_none tpl "TYPECHECK".toList "ignored-classes".toList v2 hnosec
      simp only [PylintrcMerge.apply, PylintrcMerge.maybePreserveKey, him, hic, hs2]
    | none =>
      rcases hdef with h | h
      · exact absurd him h
      · exact absurd hic h

/-- Witness for C10: empty template document, target defining
`[TYPECHECK] ignored-modules = bar` — `apply` raises `KeyError`. -/
theorem pylintrcMerge_keyError_witness :
    PylintrcMerge.apply []
      (some [("TYPECHECK".toList, [("ignored-modules".toList, "bar".toList)])]) =
      .error .keyError :=
  pylintrcMerge_keyError_on_missing_template_section []
    [("TYPECHECK".toList, [("ignored-modules".toList, "bar".toList)])]
    rfl (Or.inl (by decide))

/-! ## The rollup orchestrator (`rollup.py`)

The post-render phase of `rollup` (lines 100–121) validates the scratch
directory listing and only then walks the rendered tree, applying one
strategy per file (`apply_generated_project`, lines 162–209):

```python
actual_items_in_tempdir = os.listdir(output_dir)
expected_items_in_tempdir = [project_dest]
if actual_items_in_tempdir != expected_items_in_tempdir:
    raise RuntimeError("A project generated by cookiecutter has an unexpected file structure. ...")
apply_generated_project(output_dir / project_dest, target_path, ...)
```

and per file:

```python
target_contents = strategy.apply()
if target_contents is not None:
    target_file_path.write_bytes(target_contents.read())
    chmod = file_path.stat().st_mode & 0o777
    target_file_path.chmod(chmod)
```

The target project tree is modelled as a finite map from relative paths
to file states (contents plus permission bits); strategy execution is a
collaborator parameter of the walk (the per-strategy behaviour is
verified separately above). -/

/-- A target file: its bytes and its mode bits. -/
structure FileState where
  contents : Bytes
  mode : Nat
  deriving DecidableEq, Repr

/-- The target project tree: an association list from relative paths to
file states. -/
abbrev TargetFS := List (PyStr × FileState)

def fsGet : TargetFS → PyStr → Option FileState
  | [], _ => none
  | (q, st) :: rest, p => if q = p then some st else fsGet rest p

def fsSet : TargetFS → PyStr → FileState → TargetFS
  | [], p, st => [(p, st)]
  | (q, old) :: rest, p, st =>
      if q = p then (p, st) :: rest else (q, old) :: fsSet rest p st

/-- One file of the rendered template tree: its path relative to the
generated root, its rendered bytes, and its `st_mode`. -/
structure GenFile where
  path : PyStr
  contents : Bytes
  mode : Nat
  deriving DecidableEq, Repr

/-- Errors aborting the post-render phase: the structural-mismatch
`RuntimeError` of `rollup` (carrying the expected and actual listings),
or an exception escaping a strategy. -/
inductive RollupError where
  | structureMismatch (expected actual : List PyStr)
  | strategyError (e : PyExn)
  deriving DecidableEq, Repr

/-- `rollup.py` lines 203–209: if the strategy returned a result, write
it to the target file and copy the template file's permission bits
(masked with `0o777`) onto it; if the strategy returned `None`, do
nothing at all. -/
def writeBack (fs : TargetFS) (target_file_path : PyStr) (template_mode : Nat)
    (result : Option Bytes) : TargetFS :=
  match result with
  | none => fs
  | some data => fsSet fs target_file_path ⟨data, template_mode &&& 0o777⟩

/-- One iteration of the file loop of `apply_generated_project`:
resolve the strategy for the file's relative path, feed it the existing
target bytes (if any) and the rendered bytes, and write back its
result.  `runStrategy` abstracts `strategy_node.strategy(...).apply()`. -/
def processFile {Node : Type} (scaraplate_yaml : ScaraplateYaml Node)
    (runStrategy : Node → Option Bytes → Bytes → Except RollupError (Option Bytes))
    (fs : TargetFS) (g : GenFile) : Except RollupError TargetFS :=
  let strategy_node := get_strategy scaraplate_yaml g.path
  let target_contents := (fsGet fs g.path).map FileState.contents
  match runStrategy strategy_node target_contents g.contents with
  | .error e => .error e
  | .ok result => .ok (writeBack fs g.path g.mode result)

/-- The file walk; an escaping exception aborts the run, leaving the
tree as already written (no rollback). -/
def applyFiles {Node : Type} (scaraplate_yaml : ScaraplateYaml Node)
    (runStrategy : Node → Option Bytes → Bytes → Except RollupError (Option Bytes)) :
    TargetFS → List GenFile → TargetFS × Option RollupError
  | fs, [] => (fs, none)
  | fs, g :: rest =>
    match processFile scaraplate_yaml runStrategy fs g with
    | .error e => (fs, some e)
    | .ok fs2 => applyFiles scaraplate_yaml runStrategy fs2 rest

/-- The post-render phase of `rollup`: compare the scratch listing with
`[project_dest]`; on mismatch raise the structural-mismatch error
before touching the target tree, otherwise apply the generated
project. -/
def rollupApplyPhase {Node : Type} (listing : List PyStr) (project_dest : PyStr)
    (scaraplate_yaml : ScaraplateYaml Node)
    (runStrategy : Node → Option Bytes → Bytes → Except RollupError (Option Bytes))
    (fs : TargetFS) (files : List GenFile) : TargetFS × Option RollupError :=
  if listing = [project_dest] then
    applyFiles scaraplate_yaml runStrategy fs files
  else
    (fs, some (.structureMismatch [project_dest] listing))

theorem fsGet_fsSet_same : ∀ (fs : TargetFS) (p : PyStr) (st : FileState),
    fsGet (fsSet fs p st) p = some st := by
  intro fs p st
  induction fs with
  | nil => simp [fsSet, fsGet]
  | cons qst rest ih =>
    obtain ⟨q, old⟩ := qst
    by_cases hq : q = p
    · simp [fsSet, hq, fsGet]
    · simp [fsSet, hq, fsGet, ih]

theorem fsGet_fsSet_other : ∀ (fs : TargetFS) (p q : PyStr) (st : FileState),
    q ≠ p → fsGet (fsSet fs p st) q = fsGet fs q := by
  intro fs p q st hne
  induction fs with
  | nil =>
    have hpq : ¬ (p = q) := fun h => hne h.symm
    simp [fsSet, fsGet, hpq]
  | cons rst rest ih =>
    obtain ⟨r, old⟩ := rst
    by_cases hr : r = p
    · subst hr
      have hpq : ¬ (r = q) := fun h => hne h.symm
      simp [fsSet, fsGet, hpq]
    · simp [fsSet, hr, fsGet, ih]

/-- C8: when a strategy's `apply()` returns `None`, the target file's
bytes and permission bits are left completely untouched (the whole tree
is unchanged — no write, no chmod); when it returns a result (even the
target's own unchanged bytes), the result is written to the target file
whose mode becomes the template file's permission bits masked to the
low 9 bits, and every other file is untouched. -/
theorem writeBack_none_untouched_some_writes
    (fs : TargetFS) (target_file_path : PyStr) (template_mode : Nat) :
    writeBack fs target_file_path template_mode none = fs
  ∧ (∀ data, fsGet (writeBack fs target_file_path template_mode (some data))
        target_file_path = some ⟨data, template_mode &&& 0o777⟩
      ∧ (∀ q, q ≠ target_file_path →
          fsGet (writeBack fs target_file_path template_mode (some data)) q = fsGet fs q))
  ∧ template_mode &&& 0o777 = template_mode % 512 := by
  refine ⟨rfl, ?_, Nat.and_pow_two_sub_one_eq_mod template_mode 9⟩
  intro data
  exact ⟨fsGet_fsSet_same fs target_file_path _,
    fun q hq => fsGet_fsSet_other fs target_file_path q _ hq⟩

/-- Witness for C8: a `None` result leaves a one-file tree untouched; a
`some` result rewrites the file (mode `0o100644` masked to `0o644`) and
leaves the other file alone. -/
theorem writeBack_witness :
    writeBack [("a".toList, ⟨[1], 420⟩)] "a".toList 33188 none =
      [("a".toList, ⟨[1], 420⟩)]
  ∧ fsGet (writeBack [("a".toList, ⟨[1], 420⟩), ("b".toList, ⟨[7], 493⟩)]
        "a".toList 33188 (some [2])) "a".toList = some ⟨[2], 33188 &&& 0o777⟩
  ∧ fsGet (writeBack [("a".toList, ⟨[1], 420⟩), ("b".toList, ⟨[7], 493⟩)]
        "a".toList 33188 (some [2])) "b".toList =
      fsGet [("a".toList, ⟨[1], 420⟩), ("b".toList, ⟨[7], 493⟩)] "b".toList :=
  ⟨(writeBack_none_untouched_some_writes [("a".toList, ⟨[1], 420⟩)] "a".toList 33188).1,
   ((writeBack_none_untouched_some_writes
      [("a".toList, ⟨[1], 420⟩), ("b".toList, ⟨[7], 493⟩)] "a".toList 33188).2.1 [2]).1,
   ((writeBack_none_untouched_some_writes
      [("a".toList, ⟨[1], 420⟩), ("b".toList, ⟨[7], 493⟩)] "a".toList 33188).2.1 [2]).2
     "b".toList (by decide)⟩

/-- C7: when the scratch listing is anything other than exactly
`[project_dest]`, the post-render phase stops with the
structural-mismatch error and the target tree is returned untouched —
no strategy runs and no file is written. -/
theorem rollup_structure_mismatch_aborts {Node : Type}
    (listing : List PyStr) (project_dest : PyStr)
    (scaraplate_yaml : ScaraplateYaml Node)
    (runStrategy : Node → Option Bytes → Bytes → Except RollupError (Option Bytes))
    (fs : TargetFS) (files : List GenFile)
    (hmis : listing ≠ [project_dest]) :
    rollupApplyPhase listing project_dest scaraplate_yaml runStrategy fs files =
      (fs, some (.structureMismatch [project_dest] listing)) := by
  unfold rollupApplyPhase
  rw [if_neg hmis]

/-- Witness for C7: two top-level entries, and a single entry whose
name differs from the target directory's name, both abort with the
mismatch error and an unchanged (here one-file) tree, even with files
pending. -/
theorem rollup_structure_mismatch_witness :
    rollupApplyPhase ["myproject".toList, "extra".toList] "myproject".toList
      (⟨0, []⟩ : ScaraplateYaml Nat) (fun _ _ tpl => .ok (some tpl))
      [("f".toList, ⟨[1], 420⟩)] [⟨"f".toList, [2], 33188⟩] =
      ([("f".toList, ⟨[1], 420⟩)],
        some (.structureMismatch ["myproject".toList]
          ["myproject".toList, "extra".toList]))
  ∧ rollupApplyPhase ["other".toList] "myproject".toList
      (⟨0, []⟩ : ScaraplateYaml Nat) (fun _ _ tpl => .ok (some tpl))
      [("f".toList, ⟨[1], 420⟩)] [⟨"f".toList, [2], 33188⟩] =
      ([("f".toList, ⟨[1], 420⟩)],
        some (.structureMismatch ["myproject".toList] ["other".toList])) :=
  ⟨rollup_structure_mismatch_aborts _ _ _ _ _ _ (by decide),
   rollup_structure_mismatch_aborts _ _ _ _ _ _ (by decide)⟩
